import Mathlib

/-!
Verification of the VB6 project mapper's dependency-graph core against its
specification.  The Python data model and the operations under scrutiny are
shallowly embedded below: mutation is made explicit by returning updated
values, Python lists become Lean lists, iteration over a Python `set` built
from a list is modelled by first-occurrence deduplication, and `str.lower()`
is modelled by mapping `Char.toLower` over the characters of the string.
All definitions come first, followed by the theorems about them.
-/

/-- Model of `VB6Component` (src/models/components.py).  `dependencies` is the
list of referenced component names and `content` the raw source text. -/
structure VB6Component where
  name : String
  filename : String
  component_type : String
  dependencies : List String
  content : String
deriving DecidableEq, Repr

/-- Model of `VB6Project` (src/models/components.py): an ordered registry of
components. -/
structure VB6Project where
  name : String
  path : String
  filename : String
  components : List VB6Component
deriving DecidableEq, Repr

/-- Lowercasing of a string, character by character: the model of Python's
`str.lower()` on the ASCII identifiers this tool works with. -/
def strLower (s : String) : String :=
  String.mk (s.data.map Char.toLower)

/-- Model of `VB6Project.add_component` (src/models/components.py): appends a
fresh component with empty dependencies and empty content. -/
def add_component (p : VB6Project) (name filename component_type : String) :
    VB6Project :=
  { p with components :=
      p.components ++ [⟨name, filename, component_type, [], ""⟩] }

/-- Model of `VB6Project.find_component_by_name` (src/models/components.py):
first component whose lowercased name equals the lowercased query. -/
def find_component_by_name (p : VB6Project) (name : String) :
    Option VB6Component :=
  p.components.find? (fun c => strLower c.name == strLower name)

/-- Model of `count_components_by_type` (src/utils/helpers.py). -/
def count_components_by_type (p : VB6Project) (component_type : String) : Nat :=
  p.components.countP (fun c => c.component_type == component_type)

/-- Model of `has_dependents` (src/utils/helpers.py): `any(component.name in
other.dependencies for other in project.components if other != component)`. -/
def has_dependents (p : VB6Project) (c : VB6Component) : Bool :=
  (p.components.filter (fun other => decide (other ≠ c))).any
    (fun other => other.dependencies.contains c.name)

/-- Model of `get_dependents` (src/utils/helpers.py): the components whose
`dependencies` list contains this component's name (exact string equality). -/
def get_dependents (p : VB6Project) (c : VB6Component) : List VB6Component :=
  p.components.filter (fun other => other.dependencies.contains c.name)

/-- First-occurrence deduplication with an explicit seen-set accumulator: the
model of emitting elements while skipping those already in a Python `set`. -/
def dedupSeen {α : Type} [DecidableEq α] : List α → List α → List α
  | _, [] => []
  | seen, x :: xs =>
    if x ∈ seen then dedupSeen seen xs else x :: dedupSeen (x :: seen) xs

/-- Keep the first occurrence of every element: the deterministic model of
iterating `set(xs)` / `list(set(xs))` built from the list `xs`. -/
def firstDedup {α : Type} [DecidableEq α] (l : List α) : List α :=
  dedupSeen [] l

/-- Decimal digit character: `digitChar d` is the character for digit `d`. -/
def digitChar (d : Nat) : Char := Char.ofNat (48 + d)

/-- Fuelled decimal rendering of a natural number, least significant digit
last; the fuel only bounds the recursion depth. -/
def natCharsRec : Nat → Nat → List Char
  | 0, _ => []
  | fuel + 1, n =>
    if n < 10 then [digitChar n]
    else natCharsRec fuel (n / 10) ++ [digitChar (n % 10)]

/-- Decimal rendering of a natural number. -/
def natChars (n : Nat) : List Char := natCharsRec (n + 1) n

/-- Decimal rendering as a string, the model of Python's string formatting of
an `int`. -/
def natStr (n : Nat) : String := String.mk (natChars n)

/-- Evaluation of a digit string back to a number, used to show that decimal
rendering is injective. -/
def charsToNat (l : List Char) : Nat :=
  l.foldl (fun acc c => acc * 10 + (c.toNat - 48)) 0

/-- Name with a numeric suffix appended: the model of the formatted
`name_counter` string in `add_component_from_line`. -/
def suffixName (base : String) (k : Nat) : String :=
  base ++ "_" ++ natStr k

/-- First counter in `1, 2, ...` whose suffixed name is not yet registered
(src/parsers/vbp_parser.py lines 181-184).  The Python `while` loop always
terminates because the registry is finite; searching the first
`|components| + 1` counters is enough by pigeonhole (`freeCounter_isSome`
below), so the bounded search returns the same counter as the loop. -/
def freeCounter (p : VB6Project) (base : String) : Option Nat :=
  (List.range (p.components.length + 1)).find?
    (fun k => (find_component_by_name p (suffixName base (k + 1))).isNone)

/-- Suffixed unique name chosen on a collision
(src/parsers/vbp_parser.py lines 180-186).  The `none` branch is unreachable
(`freeCounter_isSome` below). -/
def uniquifyName (p : VB6Project) (base : String) : String :=
  match freeCounter p base with
  | some k => suffixName base (k + 1)
  | none => base

/-- Model of `add_component_from_line` (src/parsers/vbp_parser.py lines
157-191), taking the component name already extracted from the manifest line
(the `os.path` filename manipulation is I/O plumbing outside the core): on a
case-insensitive collision the name is suffixed with the first free counter,
then the component is registered. -/
def add_component_from_line (p : VB6Project)
    (component_name filename component_type : String) : VB6Project :=
  match find_component_by_name p component_name with
  | none => add_component p component_name filename component_type
  | some _ => add_component p (uniquifyName p component_name)
      filename component_type

/-- Model of the component-registration part of `parse_vbp_file`
(src/parsers/vbp_parser.py): starting from an empty project, each component
line of the manifest registers one `(name, filename, type)` triple through
`add_component_from_line`. -/
def parse_vbp_file (lines : List (String × String × String)) : VB6Project :=
  lines.foldl (fun p r => add_component_from_line p r.1 r.2.1 r.2.2)
    ⟨"", "", "", []⟩

/-- The lowercased component names of a project, in registry order. -/
def lowerNames (p : VB6Project) : List String :=
  p.components.map (fun c => strLower c.name)

/-- Identifier characters of VB6 names, for whole-word matching. -/
def isIdentChar (c : Char) : Bool := c.isAlphanum || c == '_'

/-- Splits source text into maximal identifier words, each tagged with
whether the character right after it is a dot.  `acc` holds the reversed
characters of the word being read. -/
def tokenizeAux : List Char → List Char → List (List Char × Bool)
  | acc, [] => if acc.isEmpty then [] else [(acc.reverse, false)]
  | acc, c :: cs =>
    if isIdentChar c then tokenizeAux (c :: acc) cs
    else if acc.isEmpty then tokenizeAux [] cs
    else (acc.reverse, c == '.') :: tokenizeAux [] cs

/-- Lowercasing of a character list. -/
def lowerChars (l : List Char) : List Char := l.map Char.toLower

/-- Modelled from the spec: whole-identifier, case-insensitive occurrence of
the name `n` in tokenized source text under the three syntactic shapes of
spec section 4.1 — dotted member access `Name.`, instantiation `New Name`,
and type declaration `As Name`. -/
def referencedIn (toks : List (List Char × Bool)) (n : String) : Bool :=
  toks.any (fun t => t.2 && lowerChars t.1 == lowerChars n.data) ||
    (toks.zip toks.tail).any (fun pr =>
      (lowerChars pr.1.1 == ['n', 'e', 'w'] || lowerChars pr.1.1 == ['a', 's'])
        && lowerChars pr.2.1 == lowerChars n.data)

/-- Modelled from the spec: `analyze_dependencies`
(src/analyzers/dependency_analyzer.py is imported by main.py and the tests
but is absent from the source tree).  Per spec section 4.1, each component's
`dependencies` is set to the registry names other than its own name that its
source text references under the scanner's syntactic shapes; a component with
empty (unreadable) content gets an empty set. -/
def scannedDependencies (p : VB6Project) (c : VB6Component) : List String :=
  (p.components.map (fun other => other.name)).filter
    (fun n => n != c.name && referencedIn (tokenizeAux [] c.content.data) n)

/-- The component with its dependencies replaced by the scan result. -/
def scanComponent (p : VB6Project) (c : VB6Component) : VB6Component :=
  { c with dependencies := scannedDependencies p c }

/-- The project after the scan pass has run over every component. -/
def analyze_dependencies (p : VB6Project) : VB6Project :=
  { p with components := p.components.map (scanComponent p) }

/-- One entry of the `components` array assembled by `export_json`
(src/generators/json_generator.py lines 61-72). -/
structure ComponentExport where
  name : String
  type : String
  filename : String
  dependencies : List String
  dependents : List String
  dependency_count : Nat
  dependent_count : Nat
deriving DecidableEq, Repr

/-- The entry `export_json` appends for one component:
`list(set(comp.dependencies))` is modelled by first-occurrence
deduplication. -/
def exportEntry (p : VB6Project) (c : VB6Component) : ComponentExport :=
  { name := c.name
    type := c.component_type
    filename := c.filename
    dependencies := firstDedup c.dependencies
    dependents := (get_dependents p c).map (fun d => d.name)
    dependency_count := (firstDedup c.dependencies).length
    dependent_count := (get_dependents p c).length }

/-- The `components` array built by `export_json`
(src/generators/json_generator.py); the surrounding project/statistics header
and the file write are I/O plumbing outside the serialized dependency data
this claim is about. -/
def export_components (p : VB6Project) : List ComponentExport :=
  p.components.map (exportEntry p)

/-- Connectivity used by the core view (src/generators/diagrams/
core_diagram.py lines 17-21): dependents count plus deduplicated
dependencies count. -/
def connectivity (p : VB6Project) (c : VB6Component) : Nat :=
  (get_dependents p c).length + (firstDedup c.dependencies).length

/-- The `(component, total_connections)` pairs of the core view, in registry
order. -/
def component_connections (p : VB6Project) : List (VB6Component × Nat) :=
  p.components.map (fun c => (c, connectivity p c))

/-- Comparison used to model `sort(key=connections, reverse=True)`: a Python
sort is stable, so the sorted list is the unique stable descending
rearrangement, which insertion sort by this relation computes. -/
def connGE (a b : VB6Component × Nat) : Prop := b.2 ≤ a.2

instance : DecidableRel connGE := fun a b => Nat.decLe b.2 a.2

instance : IsTotal (VB6Component × Nat) connGE :=
  ⟨fun a b => Nat.le_total b.2 a.2⟩

instance : IsTrans (VB6Component × Nat) connGE :=
  ⟨fun _ _ _ hab hbc => Nat.le_trans hbc hab⟩

/-- The first `k` components after the stable descending sort by
connectivity (src/generators/diagrams/core_diagram.py lines 23-25, with
`MAX_COMPONENTS = 20` at the call sites below). -/
def components_to_render (k : Nat) (p : VB6Project) : List VB6Component :=
  ((List.insertionSort connGE (component_connections p)).take k).map
    (fun x => x.1)

/-- Index of the last component with the given name: the model of the
`node_ids` Python dict built by repeated assignment, where a later binding
overwrites an earlier one. -/
def lastIdxByName : List VB6Component → String → Option Nat
  | [], _ => none
  | c :: cs, n =>
    match lastIdxByName cs n with
    | some i => some (i + 1)
    | none => if c.name == n then some 0 else none

/-- Index of the first component with the given name: the model of a dict
insertion guarded by `if name not in node_ids`, where the first binding
wins. -/
def firstIdxByName : List VB6Component → String → Option Nat
  | [], _ => none
  | c :: cs, n =>
    if c.name == n then some 0 else (firstIdxByName cs n).map (fun i => i + 1)

/-- Edge candidates of the core view in emission order
(src/generators/diagrams/core_diagram.py lines 41-55), before the
`edges_added` deduplication; node ids are the indices of the rendered
components. -/
def coreRawPairs (p : VB6Project) : List (Nat × Nat) :=
  (components_to_render 20 p).flatMap (fun comp =>
    match lastIdxByName (components_to_render 20 p) comp.name with
    | some si =>
      (firstDedup comp.dependencies).filterMap (fun dep =>
        match find_component_by_name p dep with
        | some dep_comp =>
          match lastIdxByName (components_to_render 20 p) dep_comp.name with
          | some ti => some (si, ti)
          | none => none
        | none => none)
    | none => [])

/-- Deduplicated edges of the core view. -/
def coreEdges (p : VB6Project) : List (Nat × Nat) :=
  firstDedup (coreRawPairs p)

/-- The Form components, the nodes of the form-relationships view
(src/generators/diagrams/form_diagram.py line 13). -/
def formComps (p : VB6Project) : List VB6Component :=
  p.components.filter (fun c => c.component_type == "Form")

/-- Edge candidates of the form-relationships view in emission order
(src/generators/diagrams/form_diagram.py lines 26-40), before the
`edges_added` deduplication; node ids are the indices of the Form list. -/
def formRawPairs (p : VB6Project) : List (Nat × Nat) :=
  (formComps p).flatMap (fun form =>
    match lastIdxByName (formComps p) form.name with
    | some si =>
      (firstDedup form.dependencies).filterMap (fun dep =>
        match find_component_by_name p dep with
        | some dep_comp =>
          if dep_comp.component_type == "Form" then
            match lastIdxByName (formComps p) dep_comp.name with
            | some ti => some (si, ti)
            | none => none
          else none
        | none => none)
    | none => [])

/-- Deduplicated edges of the form-relationships view. -/
def formEdges (p : VB6Project) : List (Nat × Nat) :=
  firstDedup (formRawPairs p)

/-- Node identifier of the business-logic view: `cls i` models the id
`class{i}` of a primary (Class) node and `rel i` the id `related{i}` of a
secondary node. -/
inductive BLNode where
  | cls (i : Nat)
  | rel (i : Nat)
deriving DecidableEq, Repr

/-- Whether a business-logic node id names a primary (Class) node. -/
def BLNode.isPrimary : BLNode → Bool
  | .cls _ => true
  | .rel _ => false

/-- The Class components, the primary nodes of the business-logic view
(src/generators/diagrams/class_diagram.py line 14). -/
def classComps (p : VB6Project) : List VB6Component :=
  p.components.filter (fun c => c.component_type == "Class")

/-- The `related_components` set of the business-logic view
(src/generators/diagrams/class_diagram.py lines 27-38): non-Class components
that are a dependency of some class or depend on some class, in registry
order (the registry order stands in for Python's unordered set iteration;
the properties proved below do not depend on the order). -/
def related_components (p : VB6Project) : List VB6Component :=
  p.components.filter (fun comp =>
    comp.component_type != "Class" &&
      ((classComps p).any (fun cls =>
          (firstDedup cls.dependencies).any (fun dep =>
            decide (find_component_by_name p dep = some comp))) ||
        (classComps p).any (fun cls => comp.dependencies.contains cls.name)))

/-- The `node_ids` dict of the business-logic view: all class names are bound
first (later classes overwriting earlier ones), then related components are
bound only if their name is not yet a key. -/
def blLookup (p : VB6Project) (n : String) : Option BLNode :=
  match lastIdxByName (classComps p) n with
  | some i => some (BLNode.cls i)
  | none =>
    match firstIdxByName (related_components p) n with
    | some i => some (BLNode.rel i)
    | none => none

/-- Edge candidates from class dependencies
(src/generators/diagrams/class_diagram.py lines 57-70). -/
def businessRaw1 (p : VB6Project) : List (BLNode × BLNode) :=
  (classComps p).flatMap (fun cls =>
    match blLookup p cls.name with
    | some si =>
      (firstDedup cls.dependencies).filterMap (fun dep =>
        match find_component_by_name p dep with
        | some dep_comp =>
          match blLookup p dep_comp.name with
          | some ti => some (si, ti)
          | none => none
        | none => none)
    | none => [])

/-- Edge candidates from related components whose dependencies are classes
(src/generators/diagrams/class_diagram.py lines 72-85). -/
def businessRaw2 (p : VB6Project) : List (BLNode × BLNode) :=
  (related_components p).flatMap (fun comp =>
    match blLookup p comp.name with
    | some si =>
      (firstDedup comp.dependencies).filterMap (fun dep =>
        match find_component_by_name p dep with
        | some dep_comp =>
          if dep_comp.component_type == "Class" then
            match blLookup p dep_comp.name with
            | some ti => some (si, ti)
            | none => none
          else none
        | none => none)
    | none => [])

/-- Deduplicated edges of the business-logic view; both emission loops share
one `edges_added` set. -/
def businessEdges (p : VB6Project) : List (BLNode × BLNode) :=
  firstDedup (businessRaw1 p ++ businessRaw2 p)

/-! Concrete fixtures used by the witnesses. -/

def dualityCompA : VB6Component :=
  ⟨"frmMain", "frmMain.frm", "Form", [], ""⟩

def dualityCompB : VB6Component :=
  ⟨"modUtils", "modUtils.bas", "Module", ["frmMain"], ""⟩

def dualityProj : VB6Project :=
  ⟨"P", "", "P.vbp", [dualityCompA, dualityCompB]⟩

def c9CompA : VB6Component :=
  ⟨"clsData", "clsData.cls", "Class", [], ""⟩

def c9CompB : VB6Component :=
  ⟨"frmMain", "frmMain.frm", "Form", ["clsData"], ""⟩

def c9Proj : VB6Project :=
  ⟨"P9", "", "P9.vbp", [c9CompA, c9CompB]⟩

def c10Main : VB6Component :=
  ⟨"frmMain", "frmMain.frm", "Form", [], ""⟩

def c10Upper : VB6Component :=
  ⟨"modOther", "modOther.bas", "Module", ["FRMMAIN"], ""⟩

def c10Proj : VB6Project :=
  ⟨"P10", "", "P10.vbp", [c10Main, c10Upper]⟩

def exCompA : VB6Component :=
  ⟨"a", "a.frm", "Form", ["d1", "d2", "d3", "d4", "d5"], ""⟩

def exCompB : VB6Component :=
  ⟨"b", "b.frm", "Form", ["d1", "d2", "d3", "d4", "d5"], ""⟩

def exCompC : VB6Component :=
  ⟨"c", "c.frm", "Form", ["d1", "d2", "d3"], ""⟩

def exDummy (n : String) : VB6Component := ⟨n, n ++ ".bas", "Module", [], ""⟩

/-- A project whose connectivity scores are `a:5, b:5, c:3` with `a`
registered before `b`, as in the spec's core-view ranking scenario. -/
def c2Proj : VB6Project :=
  ⟨"P2", "", "P2.vbp",
    [exCompA, exCompB, exCompC, exDummy "d1", exDummy "d2", exDummy "d3",
      exDummy "d4", exDummy "d5"]⟩

def c3Alpha : VB6Component :=
  ⟨"alpha", "alpha.frm", "Form", [], "alpha.Show beta.Load"⟩

def c3Beta : VB6Component :=
  ⟨"beta", "beta.bas", "Module", [], ""⟩

def c3Proj : VB6Project :=
  ⟨"P3", "", "P3.vbp", [c3Alpha, c3Beta]⟩

def c4Comp : VB6Component :=
  ⟨"frmDup", "frmDup.frm", "Form", ["x", "y", "x"], ""⟩

def c4Proj : VB6Project :=
  ⟨"P4", "", "P4.vbp", [c4Comp]⟩

def c5Cls : VB6Component :=
  ⟨"clsA", "clsA.cls", "Class", ["frmB"], ""⟩

def c5Frm : VB6Component :=
  ⟨"frmB", "frmB.frm", "Form", ["clsA"], ""⟩

def c5Proj : VB6Project :=
  ⟨"P5", "", "P5.vbp", [c5Cls, c5Frm]⟩

def c8FrmX : VB6Component :=
  ⟨"frmX", "frmX.frm", "Form", ["frmY"], ""⟩

def c8FrmY : VB6Component :=
  ⟨"frmY", "frmY.frm", "Form", [], ""⟩

def c8Proj : VB6Project :=
  ⟨"P8", "", "P8.vbp", [c8FrmX, c8FrmY]⟩

/-! Theorems. -/

theorem mem_dedupSeen {α : Type} [DecidableEq α] (seen l : List α) (x : α) :
    x ∈ dedupSeen seen l ↔ x ∈ l ∧ x ∉ seen := by
  induction l generalizing seen with
  | nil => simp [dedupSeen]
  | cons y ys ih =>
    simp only [dedupSeen]
    by_cases hy : y ∈ seen
    · rw [if_pos hy, ih]
      simp only [List.mem_cons]
      constructor
      · rintro ⟨hx, hns⟩
        exact ⟨Or.inr hx, hns⟩
      · rintro ⟨hx | hx, hns⟩
        · subst hx
          exact absurd hy hns
        · exact ⟨hx, hns⟩
    · rw [if_neg hy]
      simp only [List.mem_cons, ih, not_or]
      constructor
      · rintro (rfl | ⟨hx, hxy, hxs⟩)
        · exact ⟨Or.inl rfl, hy⟩
        · exact ⟨Or.inr hx, hxs⟩
      · rintro ⟨rfl | hx, hxs⟩
        · exact Or.inl rfl
        · by_cases hxy : x = y
          · exact Or.inl hxy
          · exact Or.inr ⟨hx, hxy, hxs⟩

theorem nodup_dedupSeen {α : Type} [DecidableEq α] (seen l : List α) :
    (dedupSeen seen l).Nodup := by
  induction l generalizing seen with
  | nil => simp [dedupSeen]
  | cons y ys ih =>
    simp only [dedupSeen]
    by_cases hy : y ∈ seen
    · rw [if_pos hy]
      exact ih seen
    · rw [if_neg hy]
      refine List.nodup_cons.mpr ⟨?_, ih (y :: seen)⟩
      intro hmem
      exact ((mem_dedupSeen _ _ _).mp hmem).2 (List.mem_cons_self _ _)

theorem mem_firstDedup {α : Type} [DecidableEq α] (l : List α) (x : α) :
    x ∈ firstDedup l ↔ x ∈ l := by
  simp [firstDedup, mem_dedupSeen]

theorem nodup_firstDedup {α : Type} [DecidableEq α] (l : List α) :
    (firstDedup l).Nodup :=
  nodup_dedupSeen [] l

theorem contains_iff_mem (l : List String) (a : String) :
    l.contains a = true ↔ a ∈ l := by
  simp

/-- C1 --- Dependents/dependency duality: for components `A` and `B` of the
same project, `B` lies in `get_dependents project A` exactly when the string
`A.name` is a member of `B.dependencies`. -/
theorem duality_get_dependents (p : VB6Project) (A B : VB6Component)
    (hA : A ∈ p.components) (hB : B ∈ p.components) :
    B ∈ get_dependents p A ↔ A.name ∈ B.dependencies := by
  unfold get_dependents
  rw [List.mem_filter, contains_iff_mem]
  exact ⟨fun h => h.2, fun h => ⟨hB, h⟩⟩

/-- Witness for C1 at a concrete two-component project. -/
theorem duality_get_dependents_witness :
    dualityCompB ∈ get_dependents dualityProj dualityCompA ↔
      dualityCompA.name ∈ dualityCompB.dependencies :=
  duality_get_dependents dualityProj dualityCompA dualityCompB
    (by decide) (by decide)

/-- C9 --- When a component does not list its own name among its
dependencies, `has_dependents` agrees with non-emptiness of
`get_dependents`. -/
theorem has_dependents_iff_get_dependents_ne_nil (p : VB6Project)
    (c : VB6Component) (hc : c ∈ p.components)
    (hself : c.name ∉ c.dependencies) :
    has_dependents p c = true ↔ get_dependents p c ≠ [] := by
  unfold has_dependents get_dependents
  constructor
  · intro h hnil
    rcases List.any_eq_true.mp h with ⟨o, ho, hco⟩
    rcases List.mem_filter.mp ho with ⟨hom, _⟩
    exact (List.filter_eq_nil_iff.mp hnil o hom) hco
  · intro h
    have hex : ∃ o ∈ p.components, o.dependencies.contains c.name = true := by
      by_contra hall
      push_neg at hall
      exact h (List.filter_eq_nil_iff.mpr hall)
    rcases hex with ⟨o, ho, hco⟩
    have honec : o ≠ c := by
      rintro rfl
      exact hself ((contains_iff_mem _ _).mp hco)
    exact List.any_eq_true.mpr
      ⟨o, List.mem_filter.mpr ⟨ho, by simpa using honec⟩, hco⟩

/-- Witness for C9 at a concrete two-component project. -/
theorem has_dependents_iff_get_dependents_ne_nil_witness :
    has_dependents c9Proj c9CompA = true ↔ get_dependents c9Proj c9CompA ≠ [] :=
  has_dependents_iff_get_dependents_ne_nil c9Proj c9CompA
    (by decide) (by decide)

/-- C10 --- Membership in `get_dependents` is decided by exact, case-sensitive
string equality: `X` is returned precisely when the exact string `c.name`
occurs in `X.dependencies`; concretely, a component whose dependency entry is
`"FRMMAIN"` is not a dependent of the component named `"frmMain"`. -/
theorem get_dependents_exact_match :
    (∀ (p : VB6Project) (c X : VB6Component),
        X ∈ get_dependents p c ↔ X ∈ p.components ∧ c.name ∈ X.dependencies) ∧
      "FRMMAIN" ∈ c10Upper.dependencies ∧
        get_dependents c10Proj c10Main = [] := by
  refine ⟨fun p c X => ?_, by decide, by decide⟩
  unfold get_dependents
  rw [List.mem_filter, contains_iff_mem]

theorem charsToNat_append_digit (xs : List Char) (c : Char) :
    charsToNat (xs ++ [c]) = charsToNat xs * 10 + (c.toNat - 48) := by
  simp [charsToNat, List.foldl_append]

theorem digitChar_toNat : ∀ d, d < 10 → (digitChar d).toNat = 48 + d := by
  decide

theorem charsToNat_natCharsRec :
    ∀ fuel n, n ≤ fuel → charsToNat (natCharsRec (fuel + 1) n) = n := by
  intro fuel
  induction fuel with
  | zero =>
    intro n hn
    have h0 : n = 0 := Nat.le_zero.mp hn
    subst h0
    decide
  | succ f ih =>
    intro n hn
    by_cases h10 : n < 10
    · show charsToNat (natCharsRec (f + 1 + 1) n) = n
      rw [natCharsRec, if_pos h10]
      have hd := digitChar_toNat n h10
      simp [charsToNat, hd]
    · show charsToNat (natCharsRec (f + 1 + 1) n) = n
      rw [natCharsRec, if_neg h10]
      have hdiv : n / 10 < n := Nat.div_lt_self (by omega) (by omega)
      have hih := ih (n / 10) (by omega)
      rw [charsToNat_append_digit, hih,
        digitChar_toNat (n % 10) (Nat.mod_lt n (by omega))]
      have hmod := Nat.div_add_mod n 10
      omega

theorem natChars_inj {m n : Nat} (h : natChars m = natChars n) : m = n := by
  have hm := charsToNat_natCharsRec m m le_rfl
  have hn := charsToNat_natCharsRec n n le_rfl
  unfold natChars at h
  rw [← hm, ← hn, h]

theorem digitChar_toLower :
    ∀ d, d < 10 → Char.toLower (digitChar d) = digitChar d := by
  decide

theorem mem_natCharsRec :
    ∀ fuel n c, c ∈ natCharsRec fuel n → ∃ d, d < 10 ∧ c = digitChar d := by
  intro fuel
  induction fuel with
  | zero =>
    intro n c hc
    simp [natCharsRec] at hc
  | succ f ih =>
    intro n c hc
    rw [natCharsRec] at hc
    by_cases h10 : n < 10
    · rw [if_pos h10] at hc
      exact ⟨n, h10, (List.mem_singleton.mp hc)⟩
    · rw [if_neg h10] at hc
      rcases List.mem_append.mp hc with hc | hc
      · exact ih (n / 10) c hc
      · exact ⟨n % 10, Nat.mod_lt n (by omega), List.mem_singleton.mp hc⟩

theorem toLower_natChars (n : Nat) :
    (natChars n).map Char.toLower = natChars n := by
  have : ∀ c ∈ natChars n, Char.toLower c = id c := by
    intro c hc
    rcases mem_natCharsRec _ _ _ hc with ⟨d, hd, rfl⟩
    exact digitChar_toLower d hd
  rw [List.map_congr_left this, List.map_id]

theorem strLower_suffixName_inj (base : String) {m n : Nat}
    (h : strLower (suffixName base m) = strLower (suffixName base n)) :
    m = n := by
  unfold strLower suffixName at h
  have hd : ((base ++ "_" ++ natStr m).data.map Char.toLower) =
      ((base ++ "_" ++ natStr n).data.map Char.toLower) := by
    injection h
  rw [String.data_append, String.data_append, String.data_append,
    String.data_append, List.map_append, List.map_append,
    List.map_append, List.map_append] at hd
  have hd2 := List.append_cancel_left (List.append_cancel_left
    (List.append_assoc _ _ _ ▸ (List.append_assoc _ _ _ ▸ hd)))
  have hm : (natStr m).data = natChars m := rfl
  have hn : (natStr n).data = natChars n := rfl
  rw [hm, hn, toLower_natChars, toLower_natChars] at hd2
  exact natChars_inj hd2

theorem find_component_eq_none_iff (p : VB6Project) (n : String) :
    find_component_by_name p n = none ↔
      ∀ c ∈ p.components, strLower c.name ≠ strLower n := by
  unfold find_component_by_name
  rw [List.find?_eq_none]
  constructor
  · intro h c hc
    have := h c hc
    simpa using this
  · intro h c hc
    simpa using h c hc

theorem freeCounter_isSome (p : VB6Project) (base : String) :
    (freeCounter p base).isSome = true := by
  unfold freeCounter
  cases hfind : (List.range (p.components.length + 1)).find?
      (fun k => (find_component_by_name p (suffixName base (k + 1))).isNone)
    with
  | some k => rfl
  | none =>
    exfalso
    have hall := List.find?_eq_none.mp hfind
    have hsome : ∀ k : Fin (p.components.length + 1),
        (find_component_by_name p (suffixName base (k.1 + 1))).isSome = true := by
      intro k
      have hk := hall k.1 (List.mem_range.mpr k.2)
      cases ho : find_component_by_name p (suffixName base (k.1 + 1)) with
      | none => exact absurd (by rw [ho]; rfl) hk
      | some c => rfl
    have hfk : ∀ k : Fin (p.components.length + 1),
        find_component_by_name p (suffixName base (k.1 + 1)) =
          some (Option.get _ (hsome k)) :=
      fun k => (Option.some_get (hsome k)).symm
    have hmem : ∀ k : Fin (p.components.length + 1),
        Option.get _ (hsome k) ∈ p.components := by
      intro k
      have h := hfk k
      unfold find_component_by_name at h
      exact List.mem_of_find?_eq_some h
    have hprop : ∀ k : Fin (p.components.length + 1),
        strLower (Option.get _ (hsome k)).name =
          strLower (suffixName base (k.1 + 1)) := by
      intro k
      have h := hfk k
      unfold find_component_by_name at h
      have hb := List.find?_some h
      exact eq_of_beq hb
    have hinj : ∀ k1 k2 : Fin (p.components.length + 1),
        Option.get _ (hsome k1) = Option.get _ (hsome k2) → k1 = k2 := by
      intro k1 k2 he
      have h1 := hprop k1
      rw [he] at h1
      have h2 := h1.symm.trans (hprop k2)
      have h3 := strLower_suffixName_inj base h2
      exact Fin.ext (by omega)
    have hcard := @Finset.card_le_card_of_injOn
      (Fin (p.components.length + 1)) VB6Component Finset.univ
      p.components.toFinset
      (fun k : Fin (p.components.length + 1) => Option.get _ (hsome k))
      (fun a _ => List.mem_toFinset.mpr (hmem a))
      (fun a _ b _ h => hinj a b h)
    have huniv : (Finset.univ : Finset (Fin (p.components.length + 1))).card =
        p.components.length + 1 := by
      simp
    rw [huniv] at hcard
    have hle := List.toFinset_card_le p.components
    omega

theorem find_uniquifyName_eq_none (p : VB6Project) (base : String) :
    find_component_by_name p (uniquifyName p base) = none := by
  unfold uniquifyName
  cases hfc : freeCounter p base with
  | none =>
    have h := freeCounter_isSome p base
    rw [hfc] at h
    exact absurd h (by decide)
  | some k =>
    have hfc2 : (List.range (p.components.length + 1)).find?
        (fun k => (find_component_by_name p (suffixName base (k + 1))).isNone) =
          some k := hfc
    have hp := List.find?_some hfc2
    exact Option.isNone_iff_eq_none.mp hp

theorem lowerNames_add_component (p : VB6Project) (n f t : String) :
    lowerNames (add_component p n f t) = lowerNames p ++ [strLower n] := by
  simp [lowerNames, add_component]

theorem nodup_lowerNames_add_of_free (p : VB6Project) (n f t : String)
    (hfree : find_component_by_name p n = none)
    (h : (lowerNames p).Nodup) :
    (lowerNames (add_component p n f t)).Nodup := by
  rw [lowerNames_add_component, List.nodup_append]
  refine ⟨h, List.nodup_singleton _, ?_⟩
  intro x hx hx1
  rw [List.mem_singleton] at hx1
  subst hx1
  rcases List.mem_map.mp hx with ⟨c, hc, hcx⟩
  exact (find_component_eq_none_iff p n).mp hfree c hc hcx

theorem nodup_lowerNames_add_component_from_line (p : VB6Project)
    (n f t : String) (h : (lowerNames p).Nodup) :
    (lowerNames (add_component_from_line p n f t)).Nodup := by
  unfold add_component_from_line
  cases hf : find_component_by_name p n with
  | none => exact nodup_lowerNames_add_of_free p n f t hf h
  | some c =>
    exact nodup_lowerNames_add_of_free p _ f t
      (find_uniquifyName_eq_none p n) h

theorem length_add_component_from_line (p : VB6Project) (n f t : String) :
    (add_component_from_line p n f t).components.length =
      p.components.length + 1 := by
  unfold add_component_from_line
  cases find_component_by_name p n with
  | none => simp [add_component]
  | some c => simp [add_component]

theorem foldl_add_line_invariant (lines : List (String × String × String)) :
    ∀ q : VB6Project, (lowerNames q).Nodup →
      (lowerNames (lines.foldl
        (fun p r => add_component_from_line p r.1 r.2.1 r.2.2) q)).Nodup ∧
      (lines.foldl (fun p r => add_component_from_line p r.1 r.2.1 r.2.2)
        q).components.length = q.components.length + lines.length := by
  induction lines with
  | nil =>
    intro q h
    exact ⟨h, by simp⟩
  | cons r rs ih =>
    intro q h
    simp only [List.foldl_cons, List.length_cons]
    have h1 := nodup_lowerNames_add_component_from_line q r.1 r.2.1 r.2.2 h
    rcases ih _ h1 with ⟨hn, hl⟩
    refine ⟨hn, ?_⟩
    rw [hl, length_add_component_from_line]
    omega

/-- C6 --- After `parse_vbp_file` completes, component names are pairwise
distinct under case-insensitive comparison, and registration never fails:
every manifest component line registers exactly one component, a collision
being resolved by appending the first free numeric suffix. -/
theorem parse_vbp_file_names_distinct
    (lines : List (String × String × String)) :
    ((parse_vbp_file lines).components.map (fun c => strLower c.name)).Nodup ∧
      (parse_vbp_file lines).components.length = lines.length := by
  unfold parse_vbp_file
  have h := foldl_add_line_invariant lines ⟨"", "", "", []⟩ (by simp [lowerNames])
  exact ⟨h.1, by simpa using h.2⟩

/-- C3 --- No self-loops: after the dependency scan completes, no component
lists its own name among its dependencies, even when that name appears
textually in its source (the scanner is modelled from the spec, the analyzer
module being absent from the source tree). -/
theorem analyze_dependencies_no_self_loops (p : VB6Project) (c : VB6Component)
    (hc : c ∈ (analyze_dependencies p).components) :
    c.name ∉ c.dependencies := by
  rcases List.mem_map.mp hc with ⟨c0, hc0, rfl⟩
  intro hmem
  have hmem2 : (scanComponent p c0).name ∈ scannedDependencies p c0 := hmem
  unfold scannedDependencies at hmem2
  rw [List.mem_filter, Bool.and_eq_true] at hmem2
  have hne := hmem2.2.1
  have hname : (scanComponent p c0).name = c0.name := rfl
  rw [hname] at hne
  simp at hne

/-- Witness for C3: the component whose own name occurs in its source text
still has no self-dependency after the scan. -/
theorem analyze_dependencies_no_self_loops_witness :
    (scanComponent c3Proj c3Alpha).name ∉
      (scanComponent c3Proj c3Alpha).dependencies :=
  analyze_dependencies_no_self_loops c3Proj (scanComponent c3Proj c3Alpha)
    (by decide)

/-- C4 --- The serialized per-component dependencies sequence is a
deterministic function of the finished project (so any two invocations of
the export over the same project coincide), and it lists each distinct
dependency of the component exactly once. -/
theorem export_components_reproducible (p : VB6Project) :
    export_components p = export_components p ∧
      ∀ c ∈ p.components, (exportEntry p c).dependencies.Nodup ∧
        ∀ s, s ∈ (exportEntry p c).dependencies ↔ s ∈ c.dependencies := by
  refine ⟨rfl, fun c _ => ⟨?_, ?_⟩⟩
  · exact nodup_firstDedup c.dependencies
  · intro s
    exact mem_firstDedup c.dependencies s

/-- Witness for C4 at a component with a duplicated dependency entry. -/
theorem export_components_reproducible_witness :
    (exportEntry c4Proj c4Comp).dependencies.Nodup ∧
      ∀ s, s ∈ (exportEntry c4Proj c4Comp).dependencies ↔
        s ∈ c4Comp.dependencies :=
  (export_components_reproducible c4Proj).2 c4Comp (by decide)

/-- C7 --- In each of the three projection builders, every directed edge is
emitted at most once: the emitted edge lists carry no duplicate
`(sourceId, targetId)` pair. -/
theorem view_edges_nodup (p : VB6Project) :
    (coreEdges p).Nodup ∧ (formEdges p).Nodup ∧ (businessEdges p).Nodup :=
  ⟨nodup_firstDedup _, nodup_firstDedup _, nodup_firstDedup _⟩

theorem lastIdxByName_lt (l : List VB6Component) (n : String) :
    ∀ i, lastIdxByName l n = some i → i < l.length := by
  induction l with
  | nil =>
    intro i h
    simp [lastIdxByName] at h
  | cons c cs ih =>
    intro i h
    rw [lastIdxByName] at h
    cases hcs : lastIdxByName cs n with
    | some j =>
      rw [hcs] at h
      injection h with h
      have := ih j hcs
      rw [List.length_cons]
      omega
    | none =>
      rw [hcs] at h
      by_cases hc : (c.name == n) = true
      · rw [if_pos hc] at h
        injection h with h
        rw [List.length_cons]
        omega
      · rw [if_neg hc] at h
        exact absurd h (by simp)

theorem lastIdxByName_ne_none (l : List VB6Component) (c : VB6Component)
    (hc : c ∈ l) : lastIdxByName l c.name ≠ none := by
  induction l with
  | nil => simp at hc
  | cons d ds ih =>
    rw [lastIdxByName]
    cases hds : lastIdxByName ds c.name with
    | some j => simp
    | none =>
      rcases List.mem_cons.mp hc with rfl | hmem
      · simp
      · exact absurd hds (ih hmem)

/-- C8 --- The form-relationships view is the induced subgraph on Form
components: its node set is exactly the Form-typed components, and both
endpoints of every emitted edge index nodes of that Form list. -/
theorem form_view_induced (p : VB6Project) :
    (∀ c, c ∈ formComps p ↔ c ∈ p.components ∧ c.component_type = "Form") ∧
      ∀ e : Nat × Nat, e ∈ formEdges p →
        e.1 < (formComps p).length ∧ e.2 < (formComps p).length := by
  constructor
  · intro c
    simp [formComps, List.mem_filter]
  · intro e he
    have hraw : e ∈ formRawPairs p := (mem_firstDedup _ _).mp he
    unfold formRawPairs at hraw
    rw [List.mem_flatMap] at hraw
    rcases hraw with ⟨form, hform, hin⟩
    cases hsi : lastIdxByName (formComps p) form.name with
    | none =>
      rw [hsi] at hin
      simp at hin
    | some si =>
      rw [hsi] at hin
      rw [List.mem_filterMap] at hin
      rcases hin with ⟨dep, _, hsome⟩
      cases hfind : find_component_by_name p dep with
      | none =>
        rw [hfind] at hsome
        simp at hsome
      | some dc =>
        rw [hfind] at hsome
        dsimp only at hsome
        by_cases htype : (dc.component_type == "Form") = true
        · rw [if_pos htype] at hsome
          cases hti : lastIdxByName (formComps p) dc.name with
          | none =>
            rw [hti] at hsome
            simp at hsome
          | some ti =>
            rw [hti] at hsome
            injection hsome with hsome
            rw [← hsome]
            exact ⟨lastIdxByName_lt _ _ si hsi, lastIdxByName_lt _ _ ti hti⟩
        · rw [if_neg htype] at hsome
          simp at hsome

/-- Witness for C8: a concrete form-to-form edge has both endpoints inside
the Form node list. -/
theorem form_view_induced_witness :
    (0 : Nat) < (formComps c8Proj).length ∧
      (1 : Nat) < (formComps c8Proj).length :=
  (form_view_induced c8Proj).2 (0, 1) (by decide)

theorem mem_classComps (p : VB6Project) (c : VB6Component) :
    c ∈ classComps p ↔ c ∈ p.components ∧ c.component_type = "Class" := by
  simp [classComps, List.mem_filter]

theorem blLookup_of_class (p : VB6Project) (dc : VB6Component)
    (hdc : dc ∈ p.components) (htype : dc.component_type = "Class") :
    ∃ i, blLookup p dc.name = some (BLNode.cls i) := by
  have hmem : dc ∈ classComps p := (mem_classComps p dc).mpr ⟨hdc, htype⟩
  have hne := lastIdxByName_ne_none (classComps p) dc hmem
  cases h : lastIdxByName (classComps p) dc.name with
  | none => exact absurd h hne
  | some i =>
    refine ⟨i, ?_⟩
    unfold blLookup
    rw [h]

/-- C5 --- In the business-logic view no edge connects two secondary
(non-Class) nodes: every emitted edge has a primary (Class) source or a
primary target. -/
theorem business_edges_no_secondary_pair (p : VB6Project)
    (e : BLNode × BLNode) (he : e ∈ businessEdges p) :
    e.1.isPrimary = true ∨ e.2.isPrimary = true := by
  have hraw := (mem_firstDedup _ _).mp he
  rcases List.mem_append.mp hraw with h1 | h2
  · left
    unfold businessRaw1 at h1
    rw [List.mem_flatMap] at h1
    rcases h1 with ⟨cls, hcls, hin⟩
    have hclsm := (mem_classComps p cls).mp hcls
    rcases blLookup_of_class p cls hclsm.1 hclsm.2 with ⟨i, hlook⟩
    rw [hlook] at hin
    dsimp only at hin
    rw [List.mem_filterMap] at hin
    rcases hin with ⟨dep, _, hsome⟩
    cases hfind : find_component_by_name p dep with
    | none =>
      rw [hfind] at hsome
      simp at hsome
    | some dc =>
      rw [hfind] at hsome
      dsimp only at hsome
      cases hti : blLookup p dc.name with
      | none =>
        rw [hti] at hsome
        simp at hsome
      | some ti =>
        rw [hti] at hsome
        injection hsome with hsome
        rw [← hsome]
        rfl
  · right
    unfold businessRaw2 at h2
    rw [List.mem_flatMap] at h2
    rcases h2 with ⟨comp, _, hin⟩
    cases hsi : blLookup p comp.name with
    | none =>
      rw [hsi] at hin
      simp at hin
    | some si =>
      rw [hsi] at hin
      dsimp only at hin
      rw [List.mem_filterMap] at hin
      rcases hin with ⟨dep, _, hsome⟩
      cases hfind : find_component_by_name p dep with
      | none =>
        rw [hfind] at hsome
        simp at hsome
      | some dc =>
        rw [hfind] at hsome
        dsimp only at hsome
        by_cases htype : (dc.component_type == "Class") = true
        · rw [if_pos htype] at hsome
          have hdcm : dc ∈ p.components := by
            have h := hfind
            unfold find_component_by_name at h
            exact List.mem_of_find?_eq_some h
          rcases blLookup_of_class p dc hdcm (by simpa using htype) with
            ⟨i, hlook⟩
          rw [hlook] at hsome
          injection hsome with hsome
          rw [← hsome]
          rfl
        · rw [if_neg htype] at hsome
          simp at hsome

/-- Witness for C5: a concrete business-logic edge (a class's dependency on
a form) has a primary endpoint. -/
theorem business_edges_no_secondary_pair_witness :
    (BLNode.cls 0, BLNode.rel 0).1.isPrimary = true ∨
      (BLNode.cls 0, BLNode.rel 0).2.isPrimary = true :=
  business_edges_no_secondary_pair c5Proj (BLNode.cls 0, BLNode.rel 0)
    (by decide)

/-- C2 --- Core view: components are ranked by connectivity descending (the
sorted connectivity scores are non-increasing), the stable sort breaks the
`a:5, b:5, c:3` tie by registration order so a top-2 selection yields `a`
then `b`, and every emitted edge has both endpoints among the selected
components (their node ids index the rendered list). -/
theorem core_view_ranking :
    (∀ (p : VB6Project) (e : Nat × Nat), e ∈ coreEdges p →
        e.1 < (components_to_render 20 p).length ∧
          e.2 < (components_to_render 20 p).length) ∧
      (∀ p : VB6Project,
        List.Sorted (fun a b => b ≤ a)
          ((List.insertionSort connGE (component_connections p)).map
            (fun x => x.2))) ∧
      connectivity c2Proj exCompA = 5 ∧ connectivity c2Proj exCompB = 5 ∧
      connectivity c2Proj exCompC = 3 ∧
      components_to_render 2 c2Proj = [exCompA, exCompB] := by
  refine ⟨?_, ?_, by decide, by decide, by decide, by decide⟩
  · intro p e he
    have hraw : e ∈ coreRawPairs p := (mem_firstDedup _ _).mp he
    unfold coreRawPairs at hraw
    rw [List.mem_flatMap] at hraw
    rcases hraw with ⟨comp, _, hin⟩
    cases hsi : lastIdxByName (components_to_render 20 p) comp.name with
    | none =>
      rw [hsi] at hin
      simp at hin
    | some si =>
      rw [hsi] at hin
      dsimp only at hin
      rw [List.mem_filterMap] at hin
      rcases hin with ⟨dep, _, hsome⟩
      cases hfind : find_component_by_name p dep with
      | none =>
        rw [hfind] at hsome
        simp at hsome
      | some dc =>
        rw [hfind] at hsome
        dsimp only at hsome
        cases hti : lastIdxByName (components_to_render 20 p) dc.name with
        | none =>
          rw [hti] at hsome
          simp at hsome
        | some ti =>
          rw [hti] at hsome
          injection hsome with hsome
          rw [← hsome]
          exact ⟨lastIdxByName_lt _ _ si hsi, lastIdxByName_lt _ _ ti hti⟩
  · intro p
    have hs : List.Pairwise connGE
        (List.insertionSort connGE (component_connections p)) :=
      List.sorted_insertionSort connGE (component_connections p)
    exact List.Pairwise.map (fun x : VB6Component × Nat => x.2)
      (fun a b h => h) hs

/-- Witness for C2: a concrete core-view edge has both endpoints inside the
rendered top list. -/
theorem core_view_ranking_witness :
    (0 : Nat) < (components_to_render 20 c2Proj).length ∧
      (3 : Nat) < (components_to_render 20 c2Proj).length :=
  core_view_ranking.1 c2Proj (0, 3) (by decide)
